import Mathlib

/-
Verification of ovs_performance.py against its natural-language design
specification.

The definitions below are shallow embeddings of the corresponding Python
functions of the source (ovs_performance.py); names follow the source where
Lean allows it.  Machine integers are modelled as ℤ/ℕ, Python floats as ℚ,
`sys.exit(-1)` style failures as `Except`.  The Python interpreter targeted
by the embedding is the Python 2 semantics the script was written for
(integer `/` floors; `map` returns a list).
-/

namespace OvsPerf

/-! ## Definitions: the zero-loss binary search (`binary_search`, lines
294-348 of the source) -/

/-- Model of `np.arange(start, stop, -step)` for a positive `step`:
the values `start, start - step, start - 2*step, …` while strictly above
`stop`.  For `step ≤ 0` (never used by the script) the model returns `[]`. -/
def arangeDesc (start stop step : ℚ) : List ℚ :=
  if h : 0 < step ∧ stop < start then
    start :: arangeDesc (start - step) stop step
  else
    []
termination_by (⌈(start - stop) / step⌉).toNat
decreasing_by
  have hx : (0:ℚ) < (start - stop) / step := div_pos (by linarith [h.2]) h.1
  have h1 : (start - step - stop) / step = (start - stop) / step - 1 := by
    rw [show start - step - stop = (start - stop) - step by ring, sub_div,
      div_self (ne_of_gt h.1)]
  rw [h1, Int.ceil_sub_one]
  have h2 : (1:ℤ) ≤ ⌈(start - stop) / step⌉ := by
    exact_mod_cast Int.ceil_pos.mpr hx
  omega

/-- The candidate ladder of `binary_search`:
`values = np.arange(max_value, min_value - min(min_value, step), -step)`
followed by `values = values[::-1]`. -/
def binary_search_values (min_value max_value step : ℚ) : List ℚ :=
  (arangeDesc max_value (min_value - min min_value step) step).reverse

/-- The memoization dictionary (`results`) and the trace of loads passed to
`run_test_function` (`calls`), in insertion order. -/
structure BSState (ρ : Type) where
  results : List (ℚ × ρ)
  calls : List ℚ

/-- Python dict assignment `results[v] = r`: replace an existing binding in
place, otherwise append at the end. -/
def dictInsert {ρ : Type} (results : List (ℚ × ρ)) (v : ℚ) (r : ρ) : List (ℚ × ρ) :=
  if (results.lookup v).isSome then
    results.map (fun p => if p.1 = v then (v, r) else p)
  else
    results ++ [(v, r)]

/-- One loop iteration's test:
`results[values[current_test]] = run_test_function(values[current_test])`
plus the bookkeeping that `run_test_function` was invoked on this load. -/
def bs_test {ρ : Type} (run : ℚ → ρ) (st : BSState ρ) (v : ℚ) : BSState ρ :=
  ⟨dictInsert st.results v (run v), st.calls ++ [v]⟩

/-- Memoized evaluation used after convergence:
the source runs `if not values[i] in results: results[values[i]] = run(…)`
and then reads `results[values[i]]` through `get_results_function`; this
returns the updated state together with the stored result. -/
def memoEval {ρ : Type} (run : ℚ → ρ) (st : BSState ρ) (v : ℚ) : BSState ρ × ρ :=
  match st.results.lookup v with
  | some r => (st, r)
  | none => (⟨st.results ++ [(v, run v)], st.calls ++ [v]⟩, run v)

/-- The narrowing loop of `binary_search`: runs until
`current_min == current_max - 1`; each iteration evaluates the midpoint
`int(current_min + (current_max - current_min) / 2)` (overwriting the dict
entry, as the source does) and narrows the bracket by comparing the loss of
the just-stored result against `required_result`.  The final `else` branch
is unreachable when the loop is entered with `lo < hi`, which
`binary_search` guarantees. -/
def bs_loop {ρ : Type} (run : ℚ → ρ) (g : ρ → ℚ) (required_result : ℚ)
    (values : List ℚ) (lo hi : ℕ) (st : BSState ρ) : ℕ × ℕ × BSState ρ :=
  if lo = hi - 1 then (lo, hi, st)
  else if _h : lo + 1 < hi then
    if g (run (values.getD (lo + (hi - lo) / 2) 0)) > required_result then
      bs_loop run g required_result values lo (lo + (hi - lo) / 2)
        (bs_test run st (values.getD (lo + (hi - lo) / 2) 0))
    else
      bs_loop run g required_result values (lo + (hi - lo) / 2) hi
        (bs_test run st (values.getD (lo + (hi - lo) / 2) 0))
  else (lo, hi, st)
termination_by hi - lo
decreasing_by
  · have : 1 ≤ (hi - lo) / 2 := (Nat.one_le_div_iff (by norm_num)).mpr (by omega)
    omega
  · have : (hi - lo) / 2 < hi - lo := Nat.div_lt_self (by omega) (by norm_num)
    omega

/-- The loop started from the initial bracket `current_min = 0`,
`current_max = len(values) - 1`. -/
def bs_conv {ρ : Type} (run : ℚ → ρ) (g : ρ → ℚ) (required_result : ℚ)
    (values : List ℚ) : ℕ × ℕ × BSState ρ :=
  bs_loop run g required_result values 0 (values.length - 1) ⟨[], []⟩

/-- The post-convergence phase of `binary_search`: evaluate (memoizing) the
candidate at the upper index; if its loss is within `required_result` return
it, otherwise evaluate and check the candidate at the lower index; if that
also fails, return `-1`. -/
def bs_post {ρ : Type} (run : ℚ → ρ) (g : ρ → ℚ) (required_result : ℚ)
    (values : List ℚ) (out : ℕ × ℕ × BSState ρ) : List (ℚ × ρ) × ℚ × List ℚ :=
  if g (memoEval run out.2.2 (values.getD out.2.1 0)).2 ≤ required_result then
    ((memoEval run out.2.2 (values.getD out.2.1 0)).1.results,
     values.getD out.2.1 0,
     (memoEval run out.2.2 (values.getD out.2.1 0)).1.calls)
  else if g (memoEval run (memoEval run out.2.2 (values.getD out.2.1 0)).1
      (values.getD out.1 0)).2 ≤ required_result then
    ((memoEval run (memoEval run out.2.2 (values.getD out.2.1 0)).1
        (values.getD out.1 0)).1.results,
     values.getD out.1 0,
     (memoEval run (memoEval run out.2.2 (values.getD out.2.1 0)).1
        (values.getD out.1 0)).1.calls)
  else
    ((memoEval run (memoEval run out.2.2 (values.getD out.2.1 0)).1
        (values.getD out.1 0)).1.results,
     -1,
     (memoEval run (memoEval run out.2.2 (values.getD out.2.1 0)).1
        (values.getD out.1 0)).1.calls)

/-- `binary_search(min_value, max_value, required_result, run_test_function,
get_results_function, bs_step=step)` from ovs_performance.py.  `run` is
`run_test_function`; `g` extracts from the memoized result of a tested load
the loss that `get_results_function` computes for it.  Returns the memoized
results, the chosen load (`-1` when not found), and the trace of loads
passed to `run_test_function`. -/
def binary_search {ρ : Type} (run : ℚ → ρ) (g : ρ → ℚ)
    (min_value max_value required_result step : ℚ) :
    List (ℚ × ρ) × ℚ × List ℚ :=
  if (binary_search_values min_value max_value step).length ≤ 1 then ([], -1, [])
  else
    bs_post run g required_result (binary_search_values min_value max_value step)
      (bs_conv run g required_result (binary_search_values min_value max_value step))

/-- Main loop invariant: the dictionary memoizes exactly the calls made, no
load was ever tested twice, and every tested load sits at a ladder index
outside the open bracket `(lo, hi)`, failing the threshold at or above `hi`
and meeting it at or below `lo`. -/
def StInv {ρ : Type} (run : ℚ → ρ) (g : ρ → ℚ) (req : ℚ) (values : List ℚ)
    (lo hi : ℕ) (st : BSState ρ) : Prop :=
  st.results = st.calls.map (fun w => (w, run w)) ∧ st.calls.Nodup ∧
  ∀ v ∈ st.calls, ∃ i, i < values.length ∧ values.getD i 0 = v ∧
    (i ≤ lo ∨ hi ≤ i) ∧ (i ≤ lo → g (run v) ≤ req) ∧ (hi ≤ i → req < g (run v))

/-- The conclusion of the zero-loss search claim: the chosen load (when
found) meets the threshold and no tested load above it does; if every tested
load fails, `-1` is returned; after convergence the upper candidate is
preferred and the lower candidate is evaluated only when the upper one
fails. -/
def C1Prop {ρ : Type} (run : ℚ → ρ) (g : ρ → ℚ)
    (min_value max_value required_result : ℚ) : Prop :=
  ((binary_search run g min_value max_value required_result 1).2.1 ≠ -1 →
      (binary_search run g min_value max_value required_result 1).2.1
          ∈ binary_search_values min_value max_value 1 ∧
      g (run (binary_search run g min_value max_value required_result 1).2.1)
          ≤ required_result ∧
      ∀ v ∈ (binary_search run g min_value max_value required_result 1).2.2,
        (binary_search run g min_value max_value required_result 1).2.1 < v →
          required_result < g (run v)) ∧
  ((∀ v ∈ (binary_search run g min_value max_value required_result 1).2.2,
      required_result < g (run v)) →
    (binary_search run g min_value max_value required_result 1).2.1 = -1) ∧
  (2 ≤ (binary_search_values min_value max_value 1).length →
    (g (run ((binary_search_values min_value max_value 1).getD
        (bs_conv run g required_result (binary_search_values min_value max_value 1)).2.1 0))
        ≤ required_result →
      (binary_search run g min_value max_value required_result 1).2.1
        = (binary_search_values min_value max_value 1).getD
            (bs_conv run g required_result (binary_search_values min_value max_value 1)).2.1 0 ∧
      ((binary_search_values min_value max_value 1).getD
          (bs_conv run g required_result (binary_search_values min_value max_value 1)).1 0
          ∈ (binary_search run g min_value max_value required_result 1).2.2 →
        (binary_search_values min_value max_value 1).getD
          (bs_conv run g required_result (binary_search_values min_value max_value 1)).1 0
          ∈ (bs_conv run g required_result (binary_search_values min_value max_value 1)).2.2.calls)) ∧
    (required_result < g (run ((binary_search_values min_value max_value 1).getD
        (bs_conv run g required_result (binary_search_values min_value max_value 1)).2.1 0)) →
      g (run ((binary_search_values min_value max_value 1).getD
        (bs_conv run g required_result (binary_search_values min_value max_value 1)).1 0))
        ≤ required_result →
      (binary_search run g min_value max_value required_result 1).2.1
        = (binary_search_values min_value max_value 1).getD
            (bs_conv run g required_result (binary_search_values min_value max_value 1)).1 0) ∧
    (required_result < g (run ((binary_search_values min_value max_value 1).getD
        (bs_conv run g required_result (binary_search_values min_value max_value 1)).2.1 0)) →
      required_result < g (run ((binary_search_values min_value max_value 1).getD
        (bs_conv run g required_result (binary_search_values min_value max_value 1)).1 0)) →
      (binary_search run g min_value max_value required_result 1).2.1 = -1))

/-! ## Definitions: counter series rates
(`get_packets_per_second_from_pkt_counters`, lines 1780-1806) -/

/-- Sum of consecutive first differences:
`for i in range(1, len(l)): pkts_sec += l[i] - l[i-1]`. -/
def diffSum : List ℤ → ℤ
  | [] => 0
  | [_] => 0
  | a :: b :: t => (b - a) + diffSum (b :: t)

/-- The trimming step `del counter_list[:strip]; del counter_list[-strip:]`,
executed only when `strip > 0`. -/
def stripList (l : List ℤ) (strip : ℤ) : List ℤ :=
  if 0 < strip then
    (l.drop strip.toNat).take ((l.drop strip.toNat).length - strip.toNat)
  else l

/-- `get_packets_per_second_from_pkt_counters(counters, strip)` applied to
the already-parsed counter list (the source first parses the text dump with
a regex and `map(int, …)`).  Exits with an error when `strip < 0` or fewer
than `2*strip + 2` samples are present; otherwise sums consecutive first
differences of the trimmed list and divides by `len - 1` with Python-2
integer division (floor). -/
def get_packets_per_second_from_pkt_counters (counter_list : List ℤ)
    (strip : ℤ) : Except Unit ℤ :=
  if strip < 0 ∨ (counter_list.length : ℤ) - strip * 2 < 2 then Except.error ()
  else
    Except.ok (Int.fdiv (diffSum (stripList counter_list strip))
      (((stripList counter_list strip).length : ℤ) - 1))

/-- Modelled from the spec: the exact (unfloored) mean of consecutive first
differences that `rate_from_counter_series` is documented to return; used to
compare the source's integer arithmetic against the specified value. -/
def mean_of_first_differences_spec (l : List ℤ) : ℚ :=
  (diffSum l : ℚ) / ((l.length : ℚ) - 1)

/-! ## Definitions: OpenFlow L2 rule programming
(`create_ovs_l2_of_rules` lines 1933-1975,
`create_ovs_bidirectional_l2_of_rules` lines 1981-1992) -/

/-- The externally visible steps of `create_ovs_l2_of_rules`: optional
`flush_ovs_flows()`, the `ovs-ofctl add-flow` batch of `in_port=src → dst`
rules, and the `dump-flows | wc -l` verification. -/
inductive L2Action where
  | flushRules : L2Action
  | installRules : ℕ → ℕ → ℕ → Bool → L2Action
  | verifyCount : ℕ → L2Action
deriving DecidableEq

/-- `create_ovs_l2_of_rules(number_of_flows, src_port, dst_port,
total_number_of_flows=…, clear_rules=…, mac_swap=…)`.  `observed_count` is
the flow count reported by the DUT's `dump-flows | wc -l`; a mismatch with
the expected total is the `sys.exit(-1)` rule-count failure.  Returns the
trace of actions together with the outcome. -/
def create_ovs_l2_of_rules (number_of_flows src_port dst_port : ℕ)
    (total_number_of_flows : Option ℕ) (clear_rules mac_swap : Bool)
    (observed_count : ℕ) : List L2Action × Except Unit Unit :=
  ((if clear_rules then [L2Action.flushRules] else []) ++
      [L2Action.installRules src_port dst_port number_of_flows mac_swap] ++
      (if total_number_of_flows.getD number_of_flows ≠ 0 then
        [L2Action.verifyCount (total_number_of_flows.getD number_of_flows)]
      else []),
    if total_number_of_flows.getD number_of_flows ≠ 0 ∧
        observed_count ≠ total_number_of_flows.getD number_of_flows then
      Except.error ()
    else Except.ok ())

/-- `create_ovs_bidirectional_l2_of_rules(number_of_flows, src_port,
dst_port)`: one unidirectional call with the defaults, then one with the
endpoints swapped, `total_number_of_flows=number_of_flows * 2`,
`clear_rules=False` and `mac_swap=config.mac_swap`.  The first call's
failure aborts before the second call (Python `sys.exit`). -/
def create_ovs_bidirectional_l2_of_rules (number_of_flows src_port dst_port : ℕ)
    (config_mac_swap : Bool) (observed_first observed_second : ℕ) :
    List L2Action × Except Unit Unit :=
  if (create_ovs_l2_of_rules number_of_flows src_port dst_port none true false
      observed_first).2.isOk then
    ((create_ovs_l2_of_rules number_of_flows src_port dst_port none true false
        observed_first).1 ++
      (create_ovs_l2_of_rules number_of_flows dst_port src_port
        (some (number_of_flows * 2)) false config_mac_swap observed_second).1,
      (create_ovs_l2_of_rules number_of_flows dst_port src_port
        (some (number_of_flows * 2)) false config_mac_swap observed_second).2)
  else
    create_ovs_l2_of_rules number_of_flows src_port dst_port none true false
      observed_first

/-! ## Definitions: traffic-generator statistics windowing
(`test_p2v2p_single_packet_size` run loop lines 433-436,
`get_packets_per_second_from_traffic_generator_rx_stats` lines 1750-1758) -/

/-- The seconds at which the run loop takes an rx statistics snapshot:
`for i in range(1, config.run_time): time.sleep(1);
tester.take_rx_statistics_snapshot(…)` — one snapshot per iteration. -/
def run_phase_rx_snapshot_seconds (run_time : ℕ) : List ℕ :=
  List.range' 1 (run_time - 1)

/-- Numeric value of a digit string, as natural ordering keys compare. -/
def digitsToNat (s : String) : ℕ :=
  s.data.foldl (fun n c => n * 10 + (c.toNat - 48)) 0

/-- `natsorted` over numeric text keys: stable sort by numeric value. -/
def natsorted (l : List String) : List String :=
  l.mergeSort (fun a b => decide (digitsToNat a ≤ digitsToNat b))

/-- The Python slice `l[2:-2]`. -/
def pySlice22 {α : Type} (l : List α) : List α :=
  ((l.drop 2).dropLast).dropLast

/-- The timestamps actually averaged:
`natsorted(list(rx_stats.keys()))[2:-2]`. -/
def rx_stats_interior_keys (rx_stats : List (String × ℚ)) : List String :=
  pySlice22 (natsorted (rx_stats.map Prod.fst))

/-- `get_packets_per_second_from_traffic_generator_rx_stats(rx_stats)`:
average of the `pps` figures of the interior snapshots; Python raises
`ZeroDivisionError` when no interior snapshot remains. -/
def get_packets_per_second_from_traffic_generator_rx_stats
    (rx_stats : List (String × ℚ)) : Except Unit ℚ :=
  if (rx_stats_interior_keys rx_stats).length = 0 then Except.error ()
  else
    Except.ok
      (((rx_stats_interior_keys rx_stats).map
          (fun k => (rx_stats.lookup k).getD 0)).sum
        / ((rx_stats_interior_keys rx_stats).length : ℚ))

/-! ## Definitions: loss percentage (`calc_loss_percentage`, lines 253-258) -/

/-- `calc_loss_percentage(results)` on the two counters it reads:
`max(100 - rx/tx*100, 0)`, raising `ZeroDivisionError` when
`total_tx_pkts == 0`. -/
def calc_loss_percentage (total_tx_pkts total_rx_pkts : ℚ) : Except Unit ℚ :=
  if total_tx_pkts = 0 then Except.error ()
  else Except.ok (max (100 - total_rx_pkts / total_tx_pkts * 100) 0)

/-! ## Definitions: zero-loss result reshaping
(`get_result_sets_from_zero_loss_results`, lines 3625-3646) -/

/-- The fields of one per-packet-size zero-loss result dict that
`get_result_sets_from_zero_loss_results` reads. -/
structure ZeroLossResult where
  rx_packets_second : ℚ
  cpu_stats : ℚ
  traffic_rate : ℚ
  total_tx_pkts : ℚ
  total_rx_pkts : ℚ

instance : Inhabited ZeroLossResult := ⟨⟨0, 0, 0, 0, 0⟩⟩

/-- The per-flow-count row entries: the packet-size keys walked in
`natsorted` order, each resolved through `per_pkt_results[pkt_size]`. -/
def zero_loss_entries (p : ℕ × List (String × ZeroLossResult)) :
    List ZeroLossResult :=
  (natsorted (p.2.map Prod.fst)).map (fun k => (p.2.lookup k).getD default)

/-- One iteration of the outer loop of
`get_result_sets_from_zero_loss_results`: the four per-flow-count parallel
series (throughput, cpu, achieved traffic rate, residual loss). -/
def zero_loss_row (p : ℕ × List (String × ZeroLossResult)) :
    Except Unit (ℕ × List ℚ × List ℚ × List ℚ × List ℚ) := do
  let losses ← (zero_loss_entries p).mapM
    (fun r => calc_loss_percentage r.total_tx_pkts r.total_rx_pkts)
  pure (p.1, (zero_loss_entries p).map (fun r => r.rx_packets_second),
    (zero_loss_entries p).map (fun r => r.cpu_stats),
    (zero_loss_entries p).map (fun r => r.traffic_rate), losses)

/-- `get_result_sets_from_zero_loss_results(results)`: for every flow count,
walk the packet sizes in `natsorted` order and collect four parallel
series keyed by flow count. -/
def get_result_sets_from_zero_loss_results
    (results : List (ℕ × List (String × ZeroLossResult))) :
    Except Unit (List (ℕ × List ℚ) × List (ℕ × List ℚ) × List (ℕ × List ℚ) ×
      List (ℕ × List ℚ)) := do
  let rows ← results.mapM zero_loss_row
  pure (rows.map (fun q => (q.1, q.2.1)), rows.map (fun q => (q.1, q.2.2.1)),
    rows.map (fun q => (q.1, q.2.2.2.1)), rows.map (fun q => (q.1, q.2.2.2.2)))

/-! ## Definitions: the decrease-rate assertion
(`test_p2v2p_single_packet_size` lines 354-359, `test_p_single_packet_size`
lines 853-858) -/

/-- The asserted condition `decrease_rate >= 0 or decrease_rate < 100`. -/
def decrease_rate_assert_cond (decrease_rate : ℚ) : Prop :=
  decrease_rate ≥ 0 ∨ decrease_rate < 100

/-- The traffic-stream rate computed from `decrease_rate`:
`decrease_rate *= 10000` followed by `percentage=1000000 - decrease_rate`. -/
def traffic_stream_percentage (decrease_rate : ℚ) : ℚ :=
  1000000 - decrease_rate * 10000

/-! ## Definitions: warm-up verification (`warm_up_verify`, lines 1448-1468) -/

/-- The polling loop of `warm_up_verify`, with an explicit fuel bound so the
potentially unbounded `timeout == 0` behaviour is observable as `none`.
`poll k` is the value returned by the `k`-th call of
`get_active_datapath_flows()`.  The loop state is
`(run_time, polls made so far, active_flows)`; a result carries the outcome,
the final `active_flows` value and the number of polls made. -/
def warm_up_verify_loop (poll : ℕ → ℤ) (requested_flows timeout : ℤ) :
    ℕ → ℕ → ℕ → ℤ → Option (Bool × ℤ × ℕ)
  | 0, _run_time, polls, active =>
    if active < requested_flows then none else some (true, active, polls)
  | fuel + 1, run_time, polls, active =>
    if active < requested_flows then
      if timeout ≠ 0 ∧ (run_time : ℤ) + 1 ≥ timeout then
        some (false, active, polls)
      else
        warm_up_verify_loop poll requested_flows timeout fuel (run_time + 1)
          (polls + 1) (poll polls)
    else some (true, active, polls)

/-- `warm_up_verify(requested_flows, timeout)` started from
`run_time = 0`, `active_flows = 0`. -/
def warm_up_verify (poll : ℕ → ℤ) (requested_flows timeout : ℤ) (fuel : ℕ) :
    Option (Bool × ℤ × ℕ) :=
  warm_up_verify_loop poll requested_flows timeout fuel 0 0 0


/-! ## Helper lemmas for the binary search -/

/-! ### The candidate ladder -/

theorem arange_measure_le {start stop step : ℚ} (hp : 0 < step) (hlt : stop < start) {n : ℕ}
    (hn : (⌈(start - stop) / step⌉).toNat ≤ n + 1) :
    (⌈(start - step - stop) / step⌉).toNat ≤ n := by
  have h1 : (start - step - stop) / step = (start - stop) / step - 1 := by
    rw [show start - step - stop = (start - stop) - step by ring, sub_div,
      div_self (ne_of_gt hp)]
  have hx : (0:ℚ) < (start - stop) / step := div_pos (by linarith) hp
  have h2 : (1:ℤ) ≤ ⌈(start - stop) / step⌉ := by
    exact_mod_cast Int.ceil_pos.mpr hx
  rw [h1, Int.ceil_sub_one]
  omega

theorem arangeDesc_mem {step : ℚ} (hp : 0 < step) (stop : ℚ) (start x : ℚ) :
    x ∈ arangeDesc start stop step ↔ ∃ k : ℕ, x = start - k * step ∧ stop < x := by
  suffices h : ∀ (n : ℕ) (start : ℚ), (⌈(start - stop) / step⌉).toNat ≤ n →
      (x ∈ arangeDesc start stop step ↔ ∃ k : ℕ, x = start - k * step ∧ stop < x) by
    exact h _ start le_rfl
  intro n
  induction n with
  | zero =>
    intro start hn
    have hns : ¬(0 < step ∧ stop < start) := by
      rintro ⟨_, hlt⟩
      have hx : (0:ℚ) < (start - stop) / step := div_pos (by linarith) hp
      have h2 : (0:ℤ) < ⌈(start - stop) / step⌉ := Int.ceil_pos.mpr hx
      omega
    rw [arangeDesc, dif_neg hns]
    simp only [List.not_mem_nil, false_iff]
    rintro ⟨k, hk, hx⟩
    have hstart : start ≤ stop := by
      rcases not_and_or.mp hns with h | h
      · exact absurd hp h
      · push_neg at h; exact h
    have hks : (0:ℚ) ≤ (k : ℚ) * step := by positivity
    have : x ≤ start := by rw [hk]; linarith
    linarith
  | succ n ih =>
    intro start hn
    rw [arangeDesc]
    by_cases hc : 0 < step ∧ stop < start
    · rw [dif_pos hc]
      rw [List.mem_cons, ih (start - step) (arange_measure_le hp hc.2 hn)]
      constructor
      · rintro (rfl | ⟨k, hk, hx⟩)
        · exact ⟨0, by simp, hc.2⟩
        · exact ⟨k + 1, by rw [hk]; push_cast; ring, hx⟩
      · rintro ⟨k, hk, hx⟩
        cases k with
        | zero => left; simpa using hk
        | succ k => right; exact ⟨k, by rw [hk]; push_cast; ring, hx⟩
    · rw [dif_neg hc]
      simp only [List.not_mem_nil, false_iff]
      rintro ⟨k, hk, hx⟩
      have hstart : start ≤ stop := by
        rcases not_and_or.mp hc with h | h
        · exact absurd hp h
        · push_neg at h; exact h
      have hks : (0:ℚ) ≤ (k : ℚ) * step := by positivity
      have : x ≤ start := by rw [hk]; linarith
      linarith

theorem arangeDesc_length {step : ℚ} (hp : 0 < step) (stop start : ℚ) :
    (arangeDesc start stop step).length = (⌈(start - stop) / step⌉).toNat := by
  suffices h : ∀ (n : ℕ) (start : ℚ), (⌈(start - stop) / step⌉).toNat ≤ n →
      (arangeDesc start stop step).length = (⌈(start - stop) / step⌉).toNat by
    exact h _ start le_rfl
  intro n
  induction n with
  | zero =>
    intro start hn
    have hns : ¬(0 < step ∧ stop < start) := by
      rintro ⟨_, hlt⟩
      have hx : (0:ℚ) < (start - stop) / step := div_pos (by linarith) hp
      have h2 : (0:ℤ) < ⌈(start - stop) / step⌉ := Int.ceil_pos.mpr hx
      omega
    rw [arangeDesc, dif_neg hns]
    simp only [List.length_nil]
    omega
  | succ n ih =>
    intro start hn
    rw [arangeDesc]
    by_cases hc : 0 < step ∧ stop < start
    · rw [dif_pos hc]
      have hx : (0:ℚ) < (start - stop) / step := div_pos (by linarith [hc.2]) hp
      have h2 : (1:ℤ) ≤ ⌈(start - stop) / step⌉ := by
        exact_mod_cast Int.ceil_pos.mpr hx
      have h1 : (start - step - stop) / step = (start - stop) / step - 1 := by
        rw [show start - step - stop = (start - stop) - step by ring, sub_div,
          div_self (ne_of_gt hp)]
      rw [List.length_cons, ih (start - step) (arange_measure_le hp hc.2 hn), h1,
        Int.ceil_sub_one]
      omega
    · rw [dif_neg hc]
      have hstart : start ≤ stop := by
        rcases not_and_or.mp hc with h | h
        · exact absurd hp h
        · push_neg at h; exact h
      have hx : (start - stop) / step ≤ 0 :=
        div_nonpos_iff.mpr (Or.inr ⟨by linarith, le_of_lt hp⟩)
      have h2 : ⌈(start - stop) / step⌉ ≤ 0 := by
        rw [show (0:ℤ) = ((0:ℕ):ℤ) by norm_num, Int.ceil_le]
        exact_mod_cast hx
      simp only [List.length_nil]
      omega

theorem arangeDesc_sorted {step : ℚ} (hp : 0 < step) (stop start : ℚ) :
    (arangeDesc start stop step).Sorted (· > ·) := by
  suffices h : ∀ (n : ℕ) (start : ℚ), (⌈(start - stop) / step⌉).toNat ≤ n →
      (arangeDesc start stop step).Sorted (· > ·) by
    exact h _ start le_rfl
  intro n
  induction n with
  | zero =>
    intro start hn
    have hns : ¬(0 < step ∧ stop < start) := by
      rintro ⟨_, hlt⟩
      have hx : (0:ℚ) < (start - stop) / step := div_pos (by linarith) hp
      have h2 : (0:ℤ) < ⌈(start - stop) / step⌉ := Int.ceil_pos.mpr hx
      omega
    rw [arangeDesc, dif_neg hns]
    exact List.sorted_nil
  | succ n ih =>
    intro start hn
    rw [arangeDesc]
    by_cases hc : 0 < step ∧ stop < start
    · rw [dif_pos hc]
      rw [List.sorted_cons]
      refine ⟨?_, ih (start - step) (arange_measure_le hp hc.2 hn)⟩
      intro b hb
      obtain ⟨k, hk, _⟩ := (arangeDesc_mem hp stop (start - step) b).mp hb
      have hks : (0:ℚ) ≤ (k : ℚ) * step := by positivity
      have : b ≤ start - step := by rw [hk]; linarith
      show b < start
      linarith
    · rw [dif_neg hc]
      exact List.sorted_nil

theorem binary_search_values_sorted {min_value max_value step : ℚ} (hp : 0 < step) :
    (binary_search_values min_value max_value step).Sorted (· < ·) := by
  unfold binary_search_values
  rw [List.Sorted, List.pairwise_reverse]
  exact arangeDesc_sorted hp _ _

theorem binary_search_values_length_le_one_iff {min_value max_value step : ℚ}
    (hp : 0 < step) :
    (binary_search_values min_value max_value step).length ≤ 1 ↔
      max_value ≤ max min_value step := by
  unfold binary_search_values
  rw [List.length_reverse, arangeDesc_length hp]
  have hstop : min_value - min min_value step + step = max min_value step := by
    rcases le_total min_value step with h | h
    · rw [min_eq_left h, max_eq_right h]; ring
    · rw [min_eq_right h, max_eq_left h]; ring
  constructor
  · intro h
    have h1 : ⌈(max_value - (min_value - min min_value step)) / step⌉ ≤ 1 := by omega
    rw [show (1:ℤ) = ((1:ℕ):ℤ) by norm_num, Int.ceil_le] at h1
    push_cast at h1
    rw [div_le_one hp] at h1
    linarith
  · intro h
    have h1 : (max_value - (min_value - min min_value step)) / step ≤ 1 := by
      rw [div_le_one hp]
      linarith
    have h2 : ⌈(max_value - (min_value - min min_value step)) / step⌉ ≤ 1 := by
      rw [show (1:ℤ) = ((1:ℕ):ℤ) by norm_num, Int.ceil_le]
      push_cast
      exact h1
    omega
theorem lookup_map_run {ρ : Type} (run : ℚ → ρ) (v : ℚ) :
    ∀ calls : List ℚ,
      (calls.map (fun w => (w, run w))).lookup v
        = if v ∈ calls then some (run v) else none := by
  intro calls
  induction calls with
  | nil => simp [List.lookup]
  | cons a t ih =>
    simp only [List.map_cons, List.lookup, List.mem_cons]
    by_cases hva : v = a
    · subst hva; simp
    · have : (v == a) = false := by simp [hva]
      simp [this, hva, ih]

theorem getD_lt_getD_of_sorted {values : List ℚ} (hs : values.Sorted (· < ·))
    {i j : ℕ} (hij : i < j) (hj : j < values.length) :
    values.getD i 0 < values.getD j 0 := by
  have hi : i < values.length := lt_trans hij hj
  rw [List.getD_eq_getElem values 0 hi, List.getD_eq_getElem values 0 hj]
  have := hs.rel_get_of_lt (a := ⟨i, hi⟩) (b := ⟨j, hj⟩) (by exact hij)
  simpa using this

theorem getD_le_getD_of_sorted {values : List ℚ} (hs : values.Sorted (· < ·))
    {i j : ℕ} (hij : i ≤ j) (hj : j < values.length) :
    values.getD i 0 ≤ values.getD j 0 := by
  rcases Nat.eq_or_lt_of_le hij with h | h
  · subst h; exact le_refl _
  · exact le_of_lt (getD_lt_getD_of_sorted hs h hj)

theorem getD_mem_of_lt {values : List ℚ} {i : ℕ} (hi : i < values.length) :
    values.getD i 0 ∈ values := by
  rw [List.getD_eq_getElem values 0 hi]
  exact List.getElem_mem hi

theorem memoEval_spec {ρ : Type} (run : ℚ → ρ) (st : BSState ρ) (v : ℚ)
    (hres : st.results = st.calls.map (fun w => (w, run w))) (hnd : st.calls.Nodup) :
    (memoEval run st v).2 = run v ∧
    (memoEval run st v).1.results
      = (memoEval run st v).1.calls.map (fun w => (w, run w)) ∧
    (memoEval run st v).1.calls.Nodup ∧
    v ∈ (memoEval run st v).1.calls ∧
    ∀ w, w ∈ (memoEval run st v).1.calls ↔ w ∈ st.calls ∨ w = v := by
  unfold memoEval
  rw [hres, lookup_map_run]
  by_cases hm : v ∈ st.calls
  · rw [if_pos hm]
    refine ⟨rfl, hres, hnd, hm, fun w => ?_⟩
    constructor
    · exact fun h => Or.inl h
    · rintro (h | rfl)
      · exact h
      · exact hm
  · rw [if_neg hm]
    refine ⟨rfl, by simp [hres], ?_, by simp, fun w => by simp⟩
    exact List.Nodup.append hnd (List.nodup_singleton v)
      (fun a ha hb => by
        simp only [List.mem_singleton] at hb
        exact hm (hb ▸ ha))

theorem bs_loop_spec {ρ : Type} (run : ℚ → ρ) (g : ρ → ℚ) (req : ℚ)
    (values : List ℚ) (hs : values.Sorted (· < ·)) :
    ∀ (n lo hi : ℕ) (st : BSState ρ), hi - lo ≤ n → lo < hi → hi < values.length →
      StInv run g req values lo hi st →
      lo ≤ (bs_loop run g req values lo hi st).1 ∧
      (bs_loop run g req values lo hi st).2.1 ≤ hi ∧
      (bs_loop run g req values lo hi st).1 + 1 = (bs_loop run g req values lo hi st).2.1 ∧
      StInv run g req values (bs_loop run g req values lo hi st).1
        (bs_loop run g req values lo hi st).2.1
        (bs_loop run g req values lo hi st).2.2 := by
  intro n
  induction n with
  | zero => intro lo hi st hn hlt _ _; omega
  | succ n ih =>
    intro lo hi st hn hlt hhi hinv
    rw [bs_loop]
    by_cases hb : lo = hi - 1
    · rw [if_pos hb]
      refine ⟨le_refl _, le_refl _, ?_, hinv⟩
      show lo + 1 = hi
      omega
    · rw [if_neg hb]
      have h2 : lo + 1 < hi := by omega
      rw [dif_pos h2]
      have hmid1 : lo < lo + (hi - lo) / 2 := by
        have : 1 ≤ (hi - lo) / 2 := (Nat.one_le_div_iff (by norm_num)).mpr (by omega)
        omega
      have hmid2 : lo + (hi - lo) / 2 < hi := by
        have : (hi - lo) / 2 < hi - lo := Nat.div_lt_self (by omega) (by norm_num)
        omega
      have hmidlen : lo + (hi - lo) / 2 < values.length := lt_trans hmid2 hhi
      have hfresh : values.getD (lo + (hi - lo) / 2) 0 ∉ st.calls := by
        intro hvmem
        obtain ⟨i, hilen, hieq, hiout, _, _⟩ := hinv.2.2 _ hvmem
        have hieqmid : i = lo + (hi - lo) / 2 := by
          rcases lt_trichotomy i (lo + (hi - lo) / 2) with h | h | h
          · have h3 := getD_lt_getD_of_sorted hs h hmidlen
            rw [hieq] at h3
            exact absurd h3 (lt_irrefl _)
          · exact h
          · have h3 := getD_lt_getD_of_sorted hs h hilen
            rw [hieq] at h3
            exact absurd h3 (lt_irrefl _)
        omega
      have hlook : (st.results.lookup (values.getD (lo + (hi - lo) / 2) 0)) = none := by
        rw [hinv.1, lookup_map_run, if_neg hfresh]
      have hst' : bs_test run st (values.getD (lo + (hi - lo) / 2) 0)
          = ⟨st.results ++ [(values.getD (lo + (hi - lo) / 2) 0,
              run (values.getD (lo + (hi - lo) / 2) 0))],
             st.calls ++ [values.getD (lo + (hi - lo) / 2) 0]⟩ := by
        unfold bs_test dictInsert
        rw [hlook]
        simp
      have hres' : (bs_test run st (values.getD (lo + (hi - lo) / 2) 0)).results
          = (bs_test run st (values.getD (lo + (hi - lo) / 2) 0)).calls.map
              (fun w => (w, run w)) := by
        rw [hst']
        simp [hinv.1]
      have hnd' : (bs_test run st (values.getD (lo + (hi - lo) / 2) 0)).calls.Nodup := by
        rw [hst']
        exact List.Nodup.append hinv.2.1 (List.nodup_singleton _)
          (fun a ha hb2 => by
            simp only [List.mem_singleton] at hb2
            exact hfresh (hb2 ▸ ha))
      by_cases hg : g (run (values.getD (lo + (hi - lo) / 2) 0)) > req
      · rw [if_pos hg]
        have hinvnew : StInv run g req values lo (lo + (hi - lo) / 2)
            (bs_test run st (values.getD (lo + (hi - lo) / 2) 0)) := by
          refine ⟨hres', hnd', ?_⟩
          intro w hw
          rw [hst'] at hw
          rcases List.mem_append.mp hw with hw | hw
          · obtain ⟨i, hilen, hieq, hiout, hle, hge⟩ := hinv.2.2 w hw
            refine ⟨i, hilen, hieq, ?_, hle, ?_⟩
            · rcases hiout with h | h
              · exact Or.inl h
              · exact Or.inr (by omega)
            · intro hmi
              rcases hiout with h | h
              · omega
              · exact hge h
          · simp only [List.mem_singleton] at hw
            subst hw
            exact ⟨lo + (hi - lo) / 2, hmidlen, rfl, Or.inr (le_refl _),
              fun h => absurd h (by omega), fun _ => hg⟩
        obtain ⟨ha, hb2, hc, hd⟩ := ih lo (lo + (hi - lo) / 2) _ (by omega) hmid1 hmidlen hinvnew
        exact ⟨ha, le_trans hb2 (le_of_lt hmid2), hc, hd⟩
      · rw [if_neg hg]
        push_neg at hg
        have hinvnew : StInv run g req values (lo + (hi - lo) / 2) hi
            (bs_test run st (values.getD (lo + (hi - lo) / 2) 0)) := by
          refine ⟨hres', hnd', ?_⟩
          intro w hw
          rw [hst'] at hw
          rcases List.mem_append.mp hw with hw | hw
          · obtain ⟨i, hilen, hieq, hiout, hle, hge⟩ := hinv.2.2 w hw
            refine ⟨i, hilen, hieq, ?_, ?_, hge⟩
            · rcases hiout with h | h
              · exact Or.inl (by omega)
              · exact Or.inr h
            · intro hmi
              rcases hiout with h | h
              · exact hle h
              · omega
          · simp only [List.mem_singleton] at hw
            subst hw
            exact ⟨lo + (hi - lo) / 2, hmidlen, rfl, Or.inl (le_refl _),
              fun _ => hg, fun h => absurd h (by omega)⟩
        obtain ⟨ha, hb2, hc, hd⟩ := ih (lo + (hi - lo) / 2) hi _ (by omega) hmid2 hhi hinvnew
        exact ⟨le_trans (le_of_lt hmid1) ha, hb2, hc, hd⟩

theorem bs_conv_spec {ρ : Type} (run : ℚ → ρ) (g : ρ → ℚ) (req : ℚ)
    (values : List ℚ) (hs : values.Sorted (· < ·)) (hlen : 2 ≤ values.length) :
    (bs_conv run g req values).1 + 1 = (bs_conv run g req values).2.1 ∧
    (bs_conv run g req values).2.1 < values.length ∧
    StInv run g req values (bs_conv run g req values).1
      (bs_conv run g req values).2.1 (bs_conv run g req values).2.2 := by
  unfold bs_conv
  obtain ⟨h1, h2, h3, h4⟩ := bs_loop_spec run g req values hs values.length
    0 (values.length - 1) ⟨[], []⟩ (by omega) (by omega) (by omega)
    ⟨rfl, List.nodup_nil, by intro v hv; cases hv⟩
  exact ⟨h3, by omega, h4⟩


/-! ## Claim theorems: the zero-loss binary search -/

/-- C1: for every loss metric monotone non-decreasing over the candidate
ladder and `step = 1`, `binary_search` returns a chosen load whose loss is
within `required_result`, no load tested during the search strictly above it
satisfies the threshold, `-1` is returned when no tested candidate satisfies
it, and after convergence the upper-index candidate is evaluated and checked
first, the lower one only when the upper fails. -/
theorem binary_search_monotone_spec {ρ : Type} (run : ℚ → ρ) (g : ρ → ℚ)
    (min_value max_value required_result : ℚ)
    (hmono : ∀ a b, a ∈ binary_search_values min_value max_value 1 →
        b ∈ binary_search_values min_value max_value 1 → a ≤ b →
          g (run a) ≤ g (run b)) :
    C1Prop run g min_value max_value required_result := by
  clear hmono
  unfold C1Prop
  by_cases hlen : (binary_search_values min_value max_value 1).length ≤ 1
  · have hbs : binary_search run g min_value max_value required_result 1 = ([], -1, []) := by
      unfold binary_search
      rw [if_pos hlen]
    rw [hbs]
    refine ⟨?_, ?_, ?_⟩
    · intro h
      exact absurd rfl h
    · intro _
      rfl
    · intro h2
      omega
  · have hs := @binary_search_values_sorted min_value max_value 1 (by norm_num)
    set values := binary_search_values min_value max_value 1 with hvals
    obtain ⟨hsucc, hhilt, hinv⟩ := bs_conv_spec run g required_result values hs (by omega)
    set out := bs_conv run g required_result values with hout
    have hlolt : out.1 < values.length := by omega
    set vhi := values.getD out.2.1 0 with hvhi
    set vlo := values.getD out.1 0 with hvlo
    have hvlovhi : vlo < vhi := by
      rw [hvhi, hvlo]
      exact getD_lt_getD_of_sorted hs (by omega) hhilt
    have hbs : binary_search run g min_value max_value required_result 1
        = bs_post run g required_result values out := by
      unfold binary_search
      rw [if_neg hlen]
    rw [hbs]
    unfold bs_post
    rw [← hvhi, ← hvlo]
    obtain ⟨hr1, hres1, hnd1, hmem1, hiff1⟩ := memoEval_spec run out.2.2 vhi hinv.1 hinv.2.1
    by_cases hcase1 : g (memoEval run out.2.2 vhi).2 ≤ required_result
    · rw [if_pos hcase1]
      rw [hr1] at hcase1
      have hvhimem : vhi ∈ values := by
        rw [hvhi]; exact getD_mem_of_lt hhilt
      refine ⟨?_, ?_, ?_⟩
      · intro _
        refine ⟨hvhimem, hcase1, ?_⟩
        intro v hv hgt
        rcases (hiff1 v).mp hv with hv2 | rfl
        · obtain ⟨i, hilen, hieq, hiout, hle, hge⟩ := hinv.2.2 v hv2
          rcases hiout with hi1 | hi2
          · have hvle : v ≤ vlo := by
              rw [hvlo, ← hieq]
              exact getD_le_getD_of_sorted hs hi1 hlolt
            linarith
          · exact hge hi2
        · linarith
      · intro hall
        exact absurd (hall vhi hmem1) (not_lt.mpr hcase1)
      · intro _
        refine ⟨?_, ?_, ?_⟩
        · intro _
          refine ⟨rfl, ?_⟩
          intro hvl
          rcases (hiff1 vlo).mp hvl with h | h
          · exact h
          · exact absurd h (ne_of_lt hvlovhi)
        · intro hgt _
          exact absurd hcase1 (not_le.mpr hgt)
        · intro hgt _
          exact absurd hcase1 (not_le.mpr hgt)
    · rw [if_neg hcase1]
      rw [hr1] at hcase1
      push_neg at hcase1
      obtain ⟨hr2, hres2, hnd2, hmem2, hiff2⟩ := memoEval_spec run
        (memoEval run out.2.2 vhi).1 vlo hres1 hnd1
      by_cases hcase2 : g (memoEval run (memoEval run out.2.2 vhi).1 vlo).2 ≤ required_result
      · rw [if_pos hcase2]
        rw [hr2] at hcase2
        refine ⟨?_, ?_, ?_⟩
        · intro _
          refine ⟨hvlo ▸ getD_mem_of_lt hlolt, hcase2, ?_⟩
          intro v hv hgt
          rcases (hiff2 v).mp hv with hv2 | rfl
          · rcases (hiff1 v).mp hv2 with hv3 | rfl
            · obtain ⟨i, hilen, hieq, hiout, hle, hge⟩ := hinv.2.2 v hv3
              rcases hiout with hi1 | hi2
              · have hvle : v ≤ vlo := by
                  rw [hvlo, ← hieq]
                  exact getD_le_getD_of_sorted hs hi1 hlolt
                linarith
              · exact hge hi2
            · exact hcase1
          · linarith
        · intro hall
          exact absurd (hall vlo hmem2) (not_lt.mpr hcase2)
        · intro _
          refine ⟨?_, ?_, ?_⟩
          · intro hle1
            exact absurd hle1 (not_le.mpr hcase1)
          · intro _ _
            rfl
          · intro _ hgt2
            exact absurd hcase2 (not_le.mpr hgt2)
      · rw [if_neg hcase2]
        rw [hr2] at hcase2
        push_neg at hcase2
        refine ⟨?_, ?_, ?_⟩
        · intro hne
          exact absurd rfl hne
        · intro _
          rfl
        · intro _
          refine ⟨?_, ?_, ?_⟩
          · intro hle1
            exact absurd hle1 (not_le.mpr hcase1)
          · intro _ hle2
            exact absurd hle2 (not_le.mpr hcase2)
          · intro _ _
            rfl
/-- Witness for C1 at `run = const 0`, `g = id`, `min_value = 1`,
`max_value = 3`, `required_result = 0`: the monotonicity hypothesis holds
for the constant metric. -/
theorem binary_search_monotone_spec_witness :
    C1Prop (fun _ : ℚ => (0:ℚ)) id 1 3 0 :=
  binary_search_monotone_spec (fun _ : ℚ => (0:ℚ)) id 1 3 0
    (fun _ _ _ _ _ => le_refl _)
/-- C2 counterexample: with `min_value = 9`, `max_value = 10`, `step = 2`
we have `max_value - min_value < step`, yet `binary_search` runs a test and
returns the load `10` together with a non-empty result map instead of the
empty map and `-1`; the ladder even contains the value `8 < min_value`. -/
theorem binary_search_gap_lt_step_counterexample :
    (10:ℚ) - 9 < 2 ∧
    binary_search (fun _ : ℚ => (0:ℚ)) id 9 10 0 2 = ([(10, 0)], 10, [10]) ∧
    ¬(binary_search (fun _ : ℚ => (0:ℚ)) id 9 10 0 2
        = (([] : List (ℚ × ℚ)), -1, ([] : List ℚ))) := by
  have hbs : binary_search (fun _ : ℚ => (0:ℚ)) id 9 10 0 2 = ([(10, 0)], 10, [10]) := by
    have hv : binary_search_values 9 10 2 = [8, 10] := by
      unfold binary_search_values
      rw [arangeDesc]; norm_num
      rw [arangeDesc]; norm_num
      rw [arangeDesc]; norm_num
    unfold binary_search bs_conv
    rw [hv]
    norm_num
    rw [bs_loop]
    norm_num [bs_post, memoEval, List.lookup]
  refine ⟨by norm_num, hbs, ?_⟩
  rw [hbs]
  intro hcontra
  have h2 := congrArg (fun p => p.2.1) hcontra
  norm_num at h2
/-- C2 (amended): the search returns the empty result map and `-1` without
any test exactly when the ladder has at most one candidate, which happens
iff `max_value ≤ max min_value step` (not merely when
`max_value - min_value < step`): with at most one candidate the result is
`([], -1, [])`, and with two or more candidates `run_test_function` is
invoked and both the call trace and the result map are non-empty; the
ladder consists of exactly the values `max_value - k*step` strictly greater
than `min_value - min(min_value, step)` (which may lie below `min_value`),
in ascending order. -/
theorem binary_search_ladder_and_empty {ρ : Type} (run : ℚ → ρ) (g : ρ → ℚ)
    (min_value max_value required_result step : ℚ) (hstep : 0 < step) :
    ((binary_search_values min_value max_value step).length ≤ 1 ↔
      max_value ≤ max min_value step) ∧
    ((binary_search_values min_value max_value step).length ≤ 1 →
      binary_search run g min_value max_value required_result step = ([], -1, [])) ∧
    (2 ≤ (binary_search_values min_value max_value step).length →
      (binary_search run g min_value max_value required_result step).2.2 ≠ [] ∧
      (binary_search run g min_value max_value required_result step).1 ≠ []) ∧
    (∀ v, v ∈ binary_search_values min_value max_value step ↔
      ∃ k : ℕ, v = max_value - k * step ∧ min_value - min min_value step < v) := by
  refine ⟨binary_search_values_length_le_one_iff hstep, ?_, ?_, ?_⟩
  · intro hlen
    unfold binary_search
    rw [if_pos hlen]
  · intro h2
    have hs := @binary_search_values_sorted min_value max_value step hstep
    set values := binary_search_values min_value max_value step with hvals
    obtain ⟨hsucc, hhilt, hinv⟩ := bs_conv_spec run g required_result values hs h2
    set out := bs_conv run g required_result values with hout
    set vhi := values.getD out.2.1 0 with hvhi
    set vlo := values.getD out.1 0 with hvlo
    have hbs : binary_search run g min_value max_value required_result step
        = bs_post run g required_result values out := by
      unfold binary_search
      rw [if_neg (by rw [← hvals]; omega)]
    rw [hbs]
    unfold bs_post
    rw [← hvhi, ← hvlo]
    obtain ⟨hr1, hres1, hnd1, hmem1, hiff1⟩ := memoEval_spec run out.2.2 vhi
      hinv.1 hinv.2.1
    by_cases hcase1 : g (memoEval run out.2.2 vhi).2 ≤ required_result
    · rw [if_pos hcase1]
      exact ⟨List.ne_nil_of_mem hmem1,
        List.ne_nil_of_mem
          (hres1.symm ▸ List.mem_map_of_mem (fun w => (w, run w)) hmem1)⟩
    · rw [if_neg hcase1]
      obtain ⟨hr2, hres2, hnd2, hmem2, hiff2⟩ := memoEval_spec run
        (memoEval run out.2.2 vhi).1 vlo hres1 hnd1
      have hvhi2 : vhi ∈ (memoEval run (memoEval run out.2.2 vhi).1 vlo).1.calls :=
        (hiff2 vhi).mpr (Or.inl hmem1)
      by_cases hcase2 : g (memoEval run (memoEval run out.2.2 vhi).1 vlo).2
          ≤ required_result
      · rw [if_pos hcase2]
        exact ⟨List.ne_nil_of_mem hvhi2,
          List.ne_nil_of_mem
            (hres2.symm ▸ List.mem_map_of_mem (fun w => (w, run w)) hvhi2)⟩
      · rw [if_neg hcase2]
        exact ⟨List.ne_nil_of_mem hvhi2,
          List.ne_nil_of_mem
            (hres2.symm ▸ List.mem_map_of_mem (fun w => (w, run w)) hvhi2)⟩
  · intro v
    unfold binary_search_values
    rw [List.mem_reverse]
    exact arangeDesc_mem hstep _ _ v
/-- Witness for C2 (amended): at `min_value = max_value = 1`, `step = 1`
the single-candidate ladder yields `([], -1, [])`, while at
`min_value = 1`, `max_value = 3`, `step = 1` the three-candidate ladder
makes the search run tests (non-empty call trace and result map). -/
theorem binary_search_ladder_and_empty_witness :
    (binary_search (fun _ : ℚ => (0:ℚ)) id 1 1 0 1 = ([], -1, [])) ∧
    (binary_search (fun _ : ℚ => (0:ℚ)) id 1 3 0 1).2.2 ≠ [] ∧
    (binary_search (fun _ : ℚ => (0:ℚ)) id 1 3 0 1).1 ≠ [] := by
  have hA := binary_search_ladder_and_empty (fun _ : ℚ => (0:ℚ)) id 1 1 0 1
    (by norm_num)
  have hB := binary_search_ladder_and_empty (fun _ : ℚ => (0:ℚ)) id 1 3 0 1
    (by norm_num)
  refine ⟨hA.2.1 (hA.1.mpr (by norm_num)), ?_⟩
  have h2 : 2 ≤ (binary_search_values 1 3 1).length := by
    by_contra hle
    push_neg at hle
    have h3 := hB.1.mp (by omega)
    norm_num at h3
  exact hB.2.2.1 h2
/-- C3: in every execution (positive step), `run_test_function` is invoked
at most once per candidate load (the call trace has no duplicates) and the
returned result map holds exactly one memoized entry per tested load, never
overwritten. -/
theorem binary_search_memoized {ρ : Type} (run : ℚ → ρ) (g : ρ → ℚ)
    (min_value max_value required_result step : ℚ) (hstep : 0 < step) :
    (binary_search run g min_value max_value required_result step).2.2.Nodup ∧
    (binary_search run g min_value max_value required_result step).1
      = (binary_search run g min_value max_value required_result step).2.2.map
          (fun w => (w, run w)) := by
  unfold binary_search
  by_cases hlen : (binary_search_values min_value max_value step).length ≤ 1
  · rw [if_pos hlen]
    exact ⟨List.nodup_nil, rfl⟩
  · rw [if_neg hlen]
    have hs := @binary_search_values_sorted min_value max_value step hstep
    obtain ⟨hlo, hhi, hsucc, hinv⟩ := bs_loop_spec run g required_result
      (binary_search_values min_value max_value step) hs
      (binary_search_values min_value max_value step).length
      0 ((binary_search_values min_value max_value step).length - 1) ⟨[], []⟩
      (by omega) (by omega) (by omega)
      ⟨rfl, List.nodup_nil, by intro v hv; cases hv⟩
    unfold bs_post
    obtain ⟨hr1, hres1, hnd1, hmem1, hiff1⟩ := memoEval_spec run
      (bs_conv run g required_result (binary_search_values min_value max_value step)).2.2
      ((binary_search_values min_value max_value step).getD
        (bs_conv run g required_result (binary_search_values min_value max_value step)).2.1 0)
      hinv.1 hinv.2.1
    by_cases hcase1 : g (memoEval run
        (bs_conv run g required_result (binary_search_values min_value max_value step)).2.2
        ((binary_search_values min_value max_value step).getD
          (bs_conv run g required_result (binary_search_values min_value max_value step)).2.1 0)).2
        ≤ required_result
    · rw [if_pos hcase1]
      exact ⟨hnd1, hres1⟩
    · rw [if_neg hcase1]
      obtain ⟨hr2, hres2, hnd2, hmem2, hiff2⟩ := memoEval_spec run _
        ((binary_search_values min_value max_value step).getD
          (bs_conv run g required_result (binary_search_values min_value max_value step)).1 0)
        hres1 hnd1
      by_cases hcase2 : g (memoEval run
          (memoEval run
            (bs_conv run g required_result (binary_search_values min_value max_value step)).2.2
            ((binary_search_values min_value max_value step).getD
              (bs_conv run g required_result
                (binary_search_values min_value max_value step)).2.1 0)).1
          ((binary_search_values min_value max_value step).getD
            (bs_conv run g required_result
              (binary_search_values min_value max_value step)).1 0)).2 ≤ required_result
      · rw [if_pos hcase2]
        exact ⟨hnd2, hres2⟩
      · rw [if_neg hcase2]
        exact ⟨hnd2, hres2⟩
/-- Witness for C3 at `run = const 0`, `g = id`, bounds `1..100`,
`required_result = 0`, `step = 1`. -/
theorem binary_search_memoized_witness :
    (binary_search (fun _ : ℚ => (0:ℚ)) id 1 100 0 1).2.2.Nodup ∧
    (binary_search (fun _ : ℚ => (0:ℚ)) id 1 100 0 1).1
      = (binary_search (fun _ : ℚ => (0:ℚ)) id 1 100 0 1).2.2.map
          (fun w => (w, (fun _ : ℚ => (0:ℚ)) w)) :=
  binary_search_memoized (fun _ : ℚ => (0:ℚ)) id 1 100 0 1 (by norm_num)

/-! ## Claim theorems: counter series rates -/

theorem stripList_length (l : List ℤ) (s : ℤ) :
    (stripList l s).length = l.length - 2 * s.toNat := by
  unfold stripList
  by_cases hs : 0 < s
  · rw [if_pos hs]
    simp only [List.length_take, List.length_drop]
    omega
  · rw [if_neg hs]
    have : s.toNat = 0 := by omega
    omega

/-- C4 counterexample: on the parsed series `[0, 1, 3]` with `strip = 0` the
source returns `1` (Python-2 integer division), while the mean of
consecutive first differences is `3/2`; the function therefore does not
return that mean. -/
theorem get_pps_counters_mean_counterexample :
    get_packets_per_second_from_pkt_counters [0, 1, 3] 0 = Except.ok 1 ∧
    mean_of_first_differences_spec (stripList [0, 1, 3] 0) = 3 / 2 ∧
    ((1 : ℚ) ≠ 3 / 2) := by
  refine ⟨by rfl, ?_, by norm_num⟩
  have hsl : stripList [0, 1, 3] 0 = [0, 1, 3] := by decide
  rw [hsl]
  norm_num [mean_of_first_differences_spec, diffSum]

/-- C4 (amended): `get_packets_per_second_from_pkt_counters` returns the
floor (Python-2 integer division) of the mean of consecutive first
differences of the trimmed series; it returns `10` on
`[0,10,20,30,40,50]` with `strip = 0`, and it fails with the
insufficient-samples error exactly when `strip < 0` or fewer than
`2*strip + 2` samples are present. -/
theorem get_pps_counters_spec :
    (get_packets_per_second_from_pkt_counters [0, 10, 20, 30, 40, 50] 0
      = Except.ok 10) ∧
    (∀ (l : List ℤ) (s : ℤ),
      get_packets_per_second_from_pkt_counters l s = Except.error () ↔
        (s < 0 ∨ (l.length : ℤ) < 2 * s + 2)) ∧
    (∀ (l : List ℤ) (s r : ℤ),
      get_packets_per_second_from_pkt_counters l s = Except.ok r →
        r = ⌊mean_of_first_differences_spec (stripList l s)⌋) := by
  refine ⟨by rfl, ?_, ?_⟩
  · intro l s
    unfold get_packets_per_second_from_pkt_counters
    by_cases hc : s < 0 ∨ (l.length : ℤ) - s * 2 < 2
    · rw [if_pos hc]
      constructor
      · intro _
        omega
      · intro _
        rfl
    · rw [if_neg hc]
      constructor
      · intro h
        exact Except.noConfusion h
      · intro h
        exfalso
        omega
  · intro l s r h
    unfold get_packets_per_second_from_pkt_counters at h
    by_cases hc : s < 0 ∨ (l.length : ℤ) - s * 2 < 2
    · rw [if_pos hc] at h
      exact Except.noConfusion h
    · rw [if_neg hc] at h
      have hr : r = Int.fdiv (diffSum (stripList l s))
          (((stripList l s).length : ℤ) - 1) := by
        injection h with h2
        exact h2.symm
      have hlen : 2 ≤ (stripList l s).length := by
        have := stripList_length l s
        omega
      have hcast : ((stripList l s).length : ℤ) - 1
          = (((stripList l s).length - 1 : ℕ) : ℤ) := by
        omega
      rw [hr, hcast,
        Int.fdiv_eq_ediv (diffSum (stripList l s))
          (Int.natCast_nonneg ((stripList l s).length - 1))]
      rw [show mean_of_first_differences_spec (stripList l s)
          = (diffSum (stripList l s) : ℚ) / (((stripList l s).length - 1 : ℕ) : ℚ) by
        unfold mean_of_first_differences_spec
        congr 1
        rw [Nat.cast_sub (show 1 ≤ (stripList l s).length by omega)]
        norm_num]
      exact (Rat.floor_intCast_div_natCast _ _).symm

/-- Witness for C4 (amended): the floor-of-mean equation instantiated on
`[0,10,20,30,40,50]` with `strip = 0`, whose evaluation hypothesis is the
theorem's own first conjunct. -/
theorem get_pps_counters_spec_witness :
    (10:ℤ) = ⌊mean_of_first_differences_spec (stripList [0, 10, 20, 30, 40, 50] 0)⌋ :=
  get_pps_counters_spec.2.2 [0, 10, 20, 30, 40, 50] 0 10 get_pps_counters_spec.1

/-! ## Claim theorems: bidirectional L2 rule programming -/

/-- C5: bidirectional per-flow L2 rule programming is two unidirectional
installations with the ports swapped, the second suppressing its clear step,
and the second verification demands exactly `2 * number_of_flows` observed
rules (`200` for `100` flows); any other observed count (such as `199`)
fails with the rule-count-mismatch error. -/
theorem create_ovs_bidirectional_l2_of_rules_spec
    (number_of_flows src_port dst_port : ℕ) (config_mac_swap : Bool)
    (observed_second : ℕ) (hn : number_of_flows ≠ 0) :
    ((create_ovs_bidirectional_l2_of_rules number_of_flows src_port dst_port
        config_mac_swap number_of_flows observed_second).1
      = [L2Action.flushRules,
         L2Action.installRules src_port dst_port number_of_flows false,
         L2Action.verifyCount number_of_flows,
         L2Action.installRules dst_port src_port number_of_flows config_mac_swap,
         L2Action.verifyCount (number_of_flows * 2)]) ∧
    ((create_ovs_bidirectional_l2_of_rules number_of_flows src_port dst_port
        config_mac_swap number_of_flows observed_second).2 = Except.ok ()
      ↔ observed_second = number_of_flows * 2) ∧
    ((create_ovs_bidirectional_l2_of_rules 100 src_port dst_port
        config_mac_swap 100 200).2 = Except.ok ()) ∧
    ((create_ovs_bidirectional_l2_of_rules 100 src_port dst_port
        config_mac_swap 100 199).2 = Except.error ()) := by
  have hfirst : ∀ obs2 : ℕ, create_ovs_bidirectional_l2_of_rules number_of_flows
      src_port dst_port config_mac_swap number_of_flows obs2
      = ((create_ovs_l2_of_rules number_of_flows src_port dst_port none true false
          number_of_flows).1 ++
        (create_ovs_l2_of_rules number_of_flows dst_port src_port
          (some (number_of_flows * 2)) false config_mac_swap obs2).1,
        (create_ovs_l2_of_rules number_of_flows dst_port src_port
          (some (number_of_flows * 2)) false config_mac_swap obs2).2) := by
    intro obs2
    unfold create_ovs_bidirectional_l2_of_rules
    have hcond : (create_ovs_l2_of_rules number_of_flows src_port dst_port none
        true false number_of_flows).2.isOk = true := by
      unfold create_ovs_l2_of_rules
      simp [Except.isOk, Except.toBool]
    rw [if_pos hcond]
  refine ⟨?_, ?_, ?_, ?_⟩
  · rw [hfirst]
    unfold create_ovs_l2_of_rules
    simp [hn, List.append_assoc]
  · rw [hfirst]
    unfold create_ovs_l2_of_rules
    simp only [Option.getD_some]
    constructor
    · intro h
      by_contra hne
      rw [if_pos ⟨by omega, hne⟩] at h
      exact Except.noConfusion h
    · intro h
      rw [if_neg]
      intro hcon
      exact hcon.2 h
  · unfold create_ovs_bidirectional_l2_of_rules create_ovs_l2_of_rules
    simp [Except.isOk, Except.toBool]
  · unfold create_ovs_bidirectional_l2_of_rules create_ovs_l2_of_rules
    simp [Except.isOk, Except.toBool]

/-- Witness for C5 at `number_of_flows = 100`, ports `1 → 2`,
`mac_swap = false`, second observed count `200`. -/
theorem create_ovs_bidirectional_l2_of_rules_spec_witness :
    ((create_ovs_bidirectional_l2_of_rules 100 1 2 false 100 200).1
      = [L2Action.flushRules, L2Action.installRules 1 2 100 false,
         L2Action.verifyCount 100, L2Action.installRules 2 1 100 false,
         L2Action.verifyCount (100 * 2)]) ∧
    ((create_ovs_bidirectional_l2_of_rules 100 1 2 false 100 200).2
        = Except.ok () ↔ (200:ℕ) = 100 * 2) ∧
    ((create_ovs_bidirectional_l2_of_rules 100 1 2 false 100 200).2
      = Except.ok ()) ∧
    ((create_ovs_bidirectional_l2_of_rules 100 1 2 false 100 199).2
      = Except.error ()) :=
  create_ovs_bidirectional_l2_of_rules_spec 100 1 2 false 200 (by norm_num)

/-! ## Claim theorems: run-loop snapshots and windowed averaging -/

/-- C6 counterexample: with `run_time = 20` the generation loop takes `19`
one-second rx snapshots (`range(1, 20)`), not `18` as the claim states. -/
theorem run_phase_snapshot_count_counterexample :
    (run_phase_rx_snapshot_seconds 20).length = 19 ∧ (19 : ℕ) ≠ 18 := by
  constructor
  · simp [run_phase_rx_snapshot_seconds]
  · decide

/-- C6 (amended): for `run_time = 20` the loop captures `19` snapshots
(in general `run_time - 1`, plus one further snapshot taken while gathering
statistics), and the reported average discards the first `2` and last `2`
snapshots in natural timestamp order, covering `n - 4` interior snapshots of
the `n` present — `16` when `n = 20`, never `14`. -/
theorem run_phase_snapshot_windowing_spec :
    ((run_phase_rx_snapshot_seconds 20).length = 19) ∧
    (∀ run_time : ℕ, (run_phase_rx_snapshot_seconds run_time).length
      = run_time - 1) ∧
    (∀ rx_stats : List (String × ℚ),
      (rx_stats_interior_keys rx_stats).length = rx_stats.length - 4) ∧
    (∀ rx_stats : List (String × ℚ), rx_stats.length = 20 →
      (rx_stats_interior_keys rx_stats).length = 16) := by
  have hint : ∀ rx_stats : List (String × ℚ),
      (rx_stats_interior_keys rx_stats).length = rx_stats.length - 4 := by
    intro rx_stats
    unfold rx_stats_interior_keys pySlice22 natsorted
    simp only [List.length_dropLast, List.length_drop, List.length_mergeSort,
      List.length_map]
    omega
  refine ⟨by simp [run_phase_rx_snapshot_seconds], ?_, hint, ?_⟩
  · intro run_time
    simp [run_phase_rx_snapshot_seconds]
  · intro rx_stats h20
    rw [hint, h20]

/-- Witness for C6 (amended) on a concrete 20-snapshot series. -/
theorem run_phase_snapshot_windowing_spec_witness :
    (rx_stats_interior_keys (List.replicate 20 ("1", (0:ℚ)))).length = 16 :=
  run_phase_snapshot_windowing_spec.2.2.2 (List.replicate 20 ("1", (0:ℚ)))
    (by simp)

/-! ## Claim theorems: loss percentage clamping -/

/-- C7 counterexample: `total_tx_pkts = 0` and `total_rx_pkts = 0` are
non-negative counts, yet `calc_loss_percentage` raises `ZeroDivisionError`
instead of returning a clamped loss value. -/
theorem calc_loss_percentage_zero_tx_counterexample :
    (0:ℚ) ≥ 0 ∧ calc_loss_percentage 0 0 = Except.error () := by
  constructor
  · norm_num
  · unfold calc_loss_percentage
    rw [if_pos rfl]

/-- C7 (amended): for every positive `total_tx_pkts` and non-negative
`total_rx_pkts`, `calc_loss_percentage` returns a loss percentage inside
`[0, 100]`; with `total_tx_pkts = 0` it raises `ZeroDivisionError`. -/
theorem calc_loss_percentage_clamped (total_tx_pkts total_rx_pkts : ℚ)
    (htx : 0 < total_tx_pkts) (hrx : 0 ≤ total_rx_pkts) :
    ∃ p, calc_loss_percentage total_tx_pkts total_rx_pkts = Except.ok p ∧
      0 ≤ p ∧ p ≤ 100 := by
  refine ⟨max (100 - total_rx_pkts / total_tx_pkts * 100) 0, ?_,
    le_max_right _ _, ?_⟩
  · unfold calc_loss_percentage
    rw [if_neg (ne_of_gt htx)]
  · apply max_le
    · have h : 0 ≤ total_rx_pkts / total_tx_pkts * 100 := by positivity
      linarith
    · norm_num

/-- Witness for C7 (amended) at `total_tx_pkts = 1`, `total_rx_pkts = 0`. -/
theorem calc_loss_percentage_clamped_witness :
    ∃ p, calc_loss_percentage 1 0 = Except.ok p ∧ 0 ≤ p ∧ p ≤ 100 :=
  calc_loss_percentage_clamped 1 0 (by norm_num) (by norm_num)

/-! ## Claim theorems: the decrease-rate assertion -/

/-- C9: the guard `decrease_rate >= 0 or decrease_rate < 100` is a
tautology — every rational satisfies it, including the out-of-range values
`150` and `-5`, which then flow into the rate computation producing
percentages outside `[0, 1000000]`. -/
theorem decrease_rate_assert_tautology :
    (∀ r : ℚ, decrease_rate_assert_cond r) ∧
    decrease_rate_assert_cond 150 ∧ traffic_stream_percentage 150 < 0 ∧
    decrease_rate_assert_cond (-5) ∧ traffic_stream_percentage (-5) > 1000000 := by
  refine ⟨?_, ?_, ?_, ?_, ?_⟩
  · intro r
    by_cases h : (0:ℚ) ≤ r
    · exact Or.inl h
    · push_neg at h
      exact Or.inr (by linarith)
  · exact Or.inl (by norm_num)
  · norm_num [traffic_stream_percentage]
  · exact Or.inr (by norm_num)
  · norm_num [traffic_stream_percentage]


/-! ## Claim theorems: zero-loss result reshaping -/

theorem natsorted_perm (l : List String) : List.Perm (natsorted l) l :=
  List.mergeSort_perm l _

theorem natsorted_sorted (l : List String) :
    ((natsorted l).map digitsToNat).Sorted (· ≤ ·) := by
  have h := @List.sorted_mergeSort String
    (fun a b : String => decide (digitsToNat a ≤ digitsToNat b))
    (fun a b c h1 h2 => by
      simp only [decide_eq_true_eq] at h1 h2 ⊢
      exact le_trans h1 h2)
    (fun a b => by
      simp only [Bool.or_eq_true, decide_eq_true_eq]
      exact le_total _ _)
    l
  show List.Pairwise _ _
  rw [List.pairwise_map]
  exact h.imp (fun hab => by simpa using hab)

unseal List.merge List.mergeSort in
theorem natsorted_example :
    natsorted ["128", "64", "1514", "256"] = ["64", "128", "256", "1514"] := rfl

theorem zero_loss_row_ok (p : ℕ × List (String × ZeroLossResult))
    (b : ℕ × List ℚ × List ℚ × List ℚ × List ℚ) :
    zero_loss_row p = Except.ok b →
      b.1 = p.1 ∧
      b.2.1 = (zero_loss_entries p).map (fun r => r.rx_packets_second) := by
  intro h
  unfold zero_loss_row at h
  cases hl : (zero_loss_entries p).mapM
      (fun r => calc_loss_percentage r.total_tx_pkts r.total_rx_pkts) with
  | error e =>
    rw [hl] at h
    simp only [bind, Except.bind] at h
    exact Except.noConfusion h
  | ok losses =>
    rw [hl] at h
    simp only [bind, Except.bind, pure, Except.pure] at h
    injection h with h2
    rw [← h2]
    exact ⟨rfl, rfl⟩

theorem get_result_sets_series (results out) :
    get_result_sets_from_zero_loss_results results = Except.ok out →
      out.1 = results.map (fun p => (p.1,
        (zero_loss_entries p).map (fun r => r.rx_packets_second))) := by
  induction results generalizing out with
  | nil =>
    intro h
    unfold get_result_sets_from_zero_loss_results at h
    simp only [List.mapM_nil, pure, Except.pure, bind, Except.bind] at h
    injection h with h2
    rw [← h2]
    rfl
  | cons p t ih =>
    intro h
    unfold get_result_sets_from_zero_loss_results at h
    rw [List.mapM_cons] at h
    cases hfp : zero_loss_row p with
    | error e =>
      rw [hfp] at h
      simp only [bind, Except.bind] at h
      exact Except.noConfusion h
    | ok b =>
      rw [hfp] at h
      cases hmt : t.mapM zero_loss_row with
      | error e =>
        rw [hmt] at h
        simp only [bind, Except.bind] at h
        exact Except.noConfusion h
      | ok bs =>
        rw [hmt] at h
        simp only [bind, Except.bind, pure, Except.pure] at h
        injection h with h2
        obtain ⟨hb1, hb2⟩ := zero_loss_row_ok p b hfp
        have hts : get_result_sets_from_zero_loss_results t
            = Except.ok (bs.map (fun q => (q.1, q.2.1)),
              bs.map (fun q => (q.1, q.2.2.1)), bs.map (fun q => (q.1, q.2.2.2.1)),
              bs.map (fun q => (q.1, q.2.2.2.2))) := by
          unfold get_result_sets_from_zero_loss_results
          rw [hmt]
          rfl
        have hih := ih _ hts
        rw [← h2]
        simp only [List.map_cons]
        rw [← hb1, ← hb2]
        exact congrArg (List.cons (b.1, b.2.1)) hih

theorem get_result_sets_concrete :
    get_result_sets_from_zero_loss_results
      [(1000, [("128", ⟨2, 0, 0, 1, 1⟩), ("64", ⟨1, 0, 0, 1, 1⟩),
               ("1514", ⟨4, 0, 0, 1, 1⟩), ("256", ⟨3, 0, 0, 1, 1⟩)])]
      = Except.ok ([(1000, [1, 2, 3, 4])], [(1000, [0, 0, 0, 0])],
          [(1000, [0, 0, 0, 0])], [(1000, [0, 0, 0, 0])]) := by
  unfold get_result_sets_from_zero_loss_results zero_loss_row zero_loss_entries
  simp only [List.mapM_cons, List.mapM_nil, List.map_cons, List.map_nil]
  rw [natsorted_example]
  simp +decide [List.map_cons, List.map_nil, List.lookup, bind,
    Except.bind, pure, Except.pure, calc_loss_percentage, List.mapM,
    List.mapM.loop]

theorem warm_up_verify_loop_false (poll : ℕ → ℤ) (req timeout : ℤ) :
    ∀ (fuel run_time polls : ℕ) (active : ℤ),
      run_time = polls →
      (∀ k, k + 1 < polls → poll k < req) →
      (polls = 0 ∨ active = poll (polls - 1)) →
      ∀ a p, warm_up_verify_loop poll req timeout fuel run_time polls active
          = some (false, a, p) →
        timeout ≠ 0 ∧ a < req ∧ (p : ℤ) + 1 ≥ timeout ∧ ∀ k < p, poll k < req := by
  intro fuel
  induction fuel with
  | zero =>
    intro rt polls active h1 h2 h3 a p h
    unfold warm_up_verify_loop at h
    by_cases hact : active < req
    · rw [if_pos hact] at h
      exact Option.noConfusion h
    · rw [if_neg hact] at h
      simp at h
  | succ fuel ih =>
    intro rt polls active h1 h2 h3 a p h
    unfold warm_up_verify_loop at h
    by_cases hact : active < req
    · rw [if_pos hact] at h
      by_cases htime : timeout ≠ 0 ∧ (rt : ℤ) + 1 ≥ timeout
      · rw [if_pos htime] at h
        injection h with h4
        have ha : active = a := congrArg (fun q => q.2.1) h4
        have hp : polls = p := congrArg (fun q => q.2.2) h4
        subst ha
        subst hp
        refine ⟨htime.1, hact, by omega, ?_⟩
        intro k hk
        by_cases hkp : k + 1 < polls
        · exact h2 k hkp
        · have hk2 : k + 1 = polls := by omega
          rcases h3 with h3 | h3
          · omega
          · rw [show k = polls - 1 by omega, ← h3]
            exact hact
      · rw [if_neg htime] at h
        refine ih (rt + 1) (polls + 1) (poll polls) (by omega) ?_
          (Or.inr (by simp)) a p h
        intro k hk
        by_cases hkp : k + 1 < polls
        · exact h2 k hkp
        · have hk2 : k = polls - 1 ∧ 0 < polls := by omega
          rcases h3 with h3 | h3
          · omega
          · rw [hk2.1, ← h3]
            exact hact
    · rw [if_neg hact] at h
      simp at h

theorem warm_up_verify_loop_true (poll : ℕ → ℤ) (req timeout : ℤ) :
    ∀ (fuel run_time polls : ℕ) (active : ℤ) (a : ℤ) (p : ℕ),
      warm_up_verify_loop poll req timeout fuel run_time polls active
          = some (true, a, p) →
        req ≤ a := by
  intro fuel
  induction fuel with
  | zero =>
    intro rt polls active a p h
    unfold warm_up_verify_loop at h
    by_cases hact : active < req
    · rw [if_pos hact] at h
      exact Option.noConfusion h
    · rw [if_neg hact] at h
      injection h with h4
      have ha : active = a := congrArg (fun q => q.2.1) h4
      omega
  | succ fuel ih =>
    intro rt polls active a p h
    unfold warm_up_verify_loop at h
    by_cases hact : active < req
    · rw [if_pos hact] at h
      by_cases htime : timeout ≠ 0 ∧ (rt : ℤ) + 1 ≥ timeout
      · rw [if_pos htime] at h
        simp at h
      · rw [if_neg htime] at h
        exact ih _ _ _ a p h
    · rw [if_neg hact] at h
      injection h with h4
      have ha : active = a := congrArg (fun q => q.2.1) h4
      omega

theorem warm_up_verify_loop_zero_timeout (poll : ℕ → ℤ) (req : ℤ) :
    ∀ (fuel run_time polls : ℕ) (active : ℤ),
      (∀ k, poll k < req) → active < req →
      warm_up_verify_loop poll req 0 fuel run_time polls active = none := by
  intro fuel
  induction fuel with
  | zero =>
    intro rt polls active hall hact
    unfold warm_up_verify_loop
    rw [if_pos hact]
  | succ fuel ih =>
    intro rt polls active hall hact
    unfold warm_up_verify_loop
    rw [if_pos hact, if_neg (by simp)]
    exact ih _ _ _ hall (hall polls)

/-- C8: the per-flow-count output series of
`get_result_sets_from_zero_loss_results` are ordered by numeric (natural)
packet-size key order even when the keys are text: `natsorted` is a
permutation of the keys sorted by numeric value, every successful run lists
each flow count's values over its `natsorted` keys, and the packet-size keys
`["128", "64", "1514", "256"]` produce the series in order
`64, 128, 256, 1514` — never lexical string order. -/
theorem get_result_sets_natural_order :
    (∀ l : List String, List.Perm (natsorted l) l ∧
      ((natsorted l).map digitsToNat).Sorted (· ≤ ·)) ∧
    (∀ results out,
      get_result_sets_from_zero_loss_results results = Except.ok out →
        out.1 = results.map (fun p => (p.1,
          (zero_loss_entries p).map (fun r => r.rx_packets_second)))) ∧
    (get_result_sets_from_zero_loss_results
      [(1000, [("128", ⟨2, 0, 0, 1, 1⟩), ("64", ⟨1, 0, 0, 1, 1⟩),
               ("1514", ⟨4, 0, 0, 1, 1⟩), ("256", ⟨3, 0, 0, 1, 1⟩)])]
      = Except.ok ([(1000, [1, 2, 3, 4])], [(1000, [0, 0, 0, 0])],
          [(1000, [0, 0, 0, 0])], [(1000, [0, 0, 0, 0])])) :=
  ⟨fun l => ⟨natsorted_perm l, natsorted_sorted l⟩,
   get_result_sets_series, get_result_sets_concrete⟩

/-- Witness for C8 on the four-packet-size example mapping. -/
theorem get_result_sets_natural_order_witness :
    (([(1000, [(1:ℚ), 2, 3, 4])], [(1000, [(0:ℚ), 0, 0, 0])],
      [(1000, [(0:ℚ), 0, 0, 0])], [(1000, [(0:ℚ), 0, 0, 0])]) :
        List (ℕ × List ℚ) × List (ℕ × List ℚ) × List (ℕ × List ℚ) ×
          List (ℕ × List ℚ)).1
      = [((1000:ℕ), [("128", (⟨2, 0, 0, 1, 1⟩ : ZeroLossResult)),
          ("64", ⟨1, 0, 0, 1, 1⟩), ("1514", ⟨4, 0, 0, 1, 1⟩),
          ("256", ⟨3, 0, 0, 1, 1⟩)])].map
          (fun p => (p.1,
            (zero_loss_entries p).map (fun r => r.rx_packets_second))) :=
  get_result_sets_natural_order.2.1 _ _ get_result_sets_natural_order.2.2

/-! ## Claim theorems: warm-up verification -/

/-- C10 counterexample: with `timeout = -1` (not `> 0`) and
`requested_flows = 1` the function still returns `False`, immediately and
without a single poll, refuting "returns False only when timeout > 0". -/
theorem warm_up_verify_negative_timeout_counterexample :
    warm_up_verify (fun _ => 0) 1 (-1) 5 = some (false, 0, 0) ∧
    ¬((-1:ℤ) > 0) := by
  constructor
  · rfl
  · norm_num

/-- C10 (amended): `warm_up_verify` returns `False` only when
`timeout ≠ 0` and the loop counter `run_time` reaches `timeout` — after
`timeout - 1` polls for a positive timeout, all observing fewer than
`requested_flows` (immediately, with zero polls, for a negative timeout);
with `timeout = 0` it can only return `True` and polls indefinitely while
the count stays below `requested_flows`; whenever it returns `True` the
final active-flow value is at least `requested_flows`. -/
theorem warm_up_verify_spec (poll : ℕ → ℤ) (requested_flows timeout : ℤ)
    (fuel : ℕ) :
    (∀ a p, warm_up_verify poll requested_flows timeout fuel
        = some (false, a, p) →
      timeout ≠ 0 ∧ a < requested_flows ∧ (p : ℤ) + 1 ≥ timeout ∧
        ∀ k < p, poll k < requested_flows) ∧
    (timeout = 0 → ∀ a p,
      warm_up_verify poll requested_flows timeout fuel ≠ some (false, a, p)) ∧
    (∀ a p, warm_up_verify poll requested_flows timeout fuel
        = some (true, a, p) → requested_flows ≤ a) ∧
    (timeout = 0 → (∀ k, poll k < requested_flows) → 0 < requested_flows →
      warm_up_verify poll requested_flows timeout fuel = none) := by
  refine ⟨?_, ?_, ?_, ?_⟩
  · intro a p h
    exact warm_up_verify_loop_false poll requested_flows timeout fuel 0 0 0 rfl
      (by intro k hk; exact absurd hk (by omega)) (Or.inl rfl) a p h
  · intro h0 a p hsome
    obtain ⟨hne, -, -, -⟩ := warm_up_verify_loop_false poll requested_flows
      timeout fuel 0 0 0 rfl (by intro k hk; exact absurd hk (by omega))
      (Or.inl rfl) a p hsome
    exact hne h0
  · intro a p h
    exact warm_up_verify_loop_true poll requested_flows timeout fuel 0 0 0 a p h
  · intro h0 hall hpos
    subst h0
    exact warm_up_verify_loop_zero_timeout poll requested_flows fuel 0 0 0
      hall (by omega)

/-- Witness for C10 (amended): `timeout = 3` fails after two polls of a
flowless datapath, and with `timeout = 0` a first poll already at `5 ≥ 1`
flows returns `True`. -/
theorem warm_up_verify_spec_witness :
    (((3:ℤ) ≠ 0 ∧ (0:ℤ) < 1 ∧ ((2:ℕ) : ℤ) + 1 ≥ 3 ∧
      ∀ k < 2, (fun _ : ℕ => (0:ℤ)) k < 1) ∧ ((1:ℤ) ≤ 5)) :=
  ⟨(warm_up_verify_spec (fun _ => 0) 1 3 10).1 0 2 rfl,
   (warm_up_verify_spec (fun _ => 5) 1 0 1).2.2.1 5 1 rfl⟩

end OvsPerf
